import Mathlib

/-!
Shallow embedding of `microscopium/features.py` (feature-extraction pipeline
for microscopy images) and verification of its specification claims.

Images are rational-valued matrices (`Mat ℚ`), masks are `Mat Bool`, label
images are `Mat Nat`.  Python/NumPy floats appearing in feature vectors are
modelled by `PyF`: an ordinary rational, a NaN (e.g. the mean of an empty
array), or a masked entry (the value `scipy.stats.mstats.mquantiles` yields
when the data set is empty).  Fallible NumPy operations are modelled with
`Except Err`.  Floating-point routines whose exact values the claims never
inspect (skimage region properties, Otsu / local thresholds, sqrt and
trigonometry) are abstracted into an `ImageOps` parameter over which all
theorems are universally quantified.
-/

/-- Matrices as lists of rows. -/
abbrev Mat (α : Type) := List (List α)

/-- A Python float value flowing through the feature pipeline: a finite
rational, NaN, or a masked (undefined) entry from `numpy.ma`. -/
inductive PyF where
  | num (q : ℚ)
  | nan
  | masked
deriving DecidableEq

/-- Error type standing for a raised Python exception. -/
abbrev Err := String

def height (m : Mat α) : Nat := m.length

def width (m : Mat α) : Nat := (m.headD []).length

/-- Build an `h × w` matrix from an entry function. -/
def mkMat (h w : Nat) (f : Nat → Nat → α) : Mat α :=
  (List.range h).map (fun i => (List.range w).map (f i))

/-- `array.ravel()`: row-major flattening. -/
def ravel (m : Mat α) : List α := m.flatten

deriving instance DecidableEq for Except

/-- In-bounds lookup of a boolean matrix at integer coordinates, `false`
outside the array (the border value used by `scipy.ndimage`). -/
def getB (m : Mat Bool) (i j : Int) : Bool :=
  if 0 ≤ i ∧ 0 ≤ j then (m.getD i.toNat []).getD j.toNat false else false

/-- Lookup of a label image at natural coordinates, `0` outside. -/
def getN (m : Mat Nat) (i j : Nat) : Nat := (m.getD i []).getD j 0

/-- Lookup of an intensity image at natural coordinates, `0` outside. -/
def getQ (m : Mat ℚ) (i j : Nat) : ℚ := (m.getD i []).getD j 0

/-- Whether a boolean matrix has any `true` entry. -/
def anyTrue (m : Mat Bool) : Bool := m.any (fun row => row.any id)

/-- `skimage.morphology.disk r`: offsets within Euclidean distance `r`. -/
def disk (r : Nat) : List (Int × Int) :=
  ((List.range (2 * r + 1)).map (fun a => (a : Int) - (r : Int))).flatMap (fun dx =>
    (((List.range (2 * r + 1)).map (fun b => (b : Int) - (r : Int))).filter
      (fun dy => dx ^ 2 + dy ^ 2 ≤ (r : Int) ^ 2)).map (fun dy => (dx, dy)))

/-- Binary erosion by a structuring element (border value 0). -/
def erosion (m : Mat Bool) (selem : List (Int × Int)) : Mat Bool :=
  mkMat (height m) (width m) (fun i j =>
    selem.all (fun d => getB m ((i : Int) + d.1) ((j : Int) + d.2)))

/-- Binary dilation by a (symmetric) structuring element. -/
def dilation (m : Mat Bool) (selem : List (Int × Int)) : Mat Bool :=
  mkMat (height m) (width m) (fun i j =>
    selem.any (fun d => getB m ((i : Int) + d.1) ((j : Int) + d.2)))

/-- `scipy.ndimage.binary_opening`: erosion followed by dilation. -/
def binary_opening (m : Mat Bool) (selem : List (Int × Int)) : Mat Bool :=
  dilation (erosion m selem) selem

/-- The mask actually labelled by the extractors: opened when `0 < erode`,
untouched otherwise (matching `if erode > 0: ... binary_opening ...`). -/
def openedMask (m : Mat Bool) (erode : Nat) : Mat Bool :=
  if 0 < erode then binary_opening m (disk erode) else m

/-- Initial labelling for connected components: each foreground pixel gets
its raster index plus one, background gets `0`. -/
def initLab (m : Mat Bool) : Mat Nat :=
  mkMat (height m) (width m) (fun i j =>
    if (m.getD i []).getD j false then i * width m + j + 1 else 0)

/-- 4-connected neighbourhood offsets (including the pixel itself). -/
def nbors : List (Int × Int) := [(0, 0), (-1, 0), (1, 0), (0, -1), (0, 1)]

/-- Label lookup at integer coordinates, `0` outside. -/
def labGet (lab : Mat Nat) (i j : Int) : Nat :=
  if 0 ≤ i ∧ 0 ≤ j then (lab.getD i.toNat []).getD j.toNat 0 else 0

/-- One step of min-label propagation over foreground 4-neighbourhoods. -/
def relaxStep (m : Mat Bool) (lab : Mat Nat) : Mat Nat :=
  mkMat (height m) (width m) (fun i j =>
    if (m.getD i []).getD j false then
      (nbors.filterMap (fun d =>
        if getB m ((i : Int) + d.1) ((j : Int) + d.2) then
          some (labGet lab ((i : Int) + d.1) ((j : Int) + d.2))
        else none)).foldr Nat.min (getN lab i j)
    else 0)

/-- Insert into a sorted list of naturals. -/
def insertSorted (x : Nat) : List Nat → List Nat
  | [] => [x]
  | y :: ys => if x ≤ y then x :: y :: ys else y :: insertSorted x ys

/-- Insertion sort for naturals. -/
def sortNat (l : List Nat) : List Nat := l.foldr insertSorted []

/-- Sorted distinct nonzero values of a list. -/
def sortedNonzeroDistinct (l : List Nat) : List Nat :=
  (sortNat (l.filter (fun x => x ≠ 0))).dedup

/-- `scipy.ndimage.label` with 4-connectivity: connected components of the
foreground are numbered `1..n` in raster order of their first pixel
(computed by propagating the minimum raster index over each component and
ranking the component representatives); returns the label image and `n`. -/
def ndLabel (m : Mat Bool) : Mat Nat × Nat :=
  let raw := (relaxStep m)^[height m * width m] (initLab m)
  let reps := sortedNonzeroDistinct (ravel raw)
  (mkMat (height m) (width m) (fun i j =>
      if (m.getD i []).getD j false then reps.findIdx (fun v => v == getN raw i j) + 1
      else 0),
    reps.length)

/-- `numpy` comparison of a masked/NaN value with a float: NaN comparisons
are `False`; masked entries also compare unfilled (`False`). -/
def pyGt (v : PyF) (t : ℚ) : Bool :=
  match v with
  | .num q => t < q
  | .nan => false
  | .masked => false

/-- Python `'%.2f'` applied to a nonnegative rational. -/
def fmt2f (t : ℚ) : String :=
  let n := (Int.floor (t * 100 + 1 / 2)).toNat
  let fracPart := n % 100
  toString (n / 100) ++ "." ++
    (if fracPart < 10 then "0" ++ toString fracPart else toString fracPart)

/-- The single feature name built by `fraction_positive`. -/
def fracName (bin_name positive_name : String) (erode : Nat) (overlap_thresh : ℚ) :
    String :=
  "frac-" ++ bin_name ++ "-pos-" ++ positive_name ++ "-erode-" ++ toString erode ++
    "-thresh-" ++ fmt2f overlap_thresh

/-- `features.fraction_positive`: label the (optionally opened) reference
mask, build the dense label/positive co-occurrence count matrix from the
ravelled images, and report the fraction of reference objects whose
positive-pixel fraction exceeds `overlap_thresh`.  The dense matrix has
`max(positive)+1` columns, so the column-1 access raises when the positive
mask is empty; the mean over zero objects is NaN. -/
def fraction_positive (bin_im positive_im : Mat Bool) (erode : Nat)
    (overlap_thresh : ℚ) (bin_name positive_name : String) :
    Except Err (List PyF × List String) :=
  let bin1 := openedMask bin_im erode
  let pos1 := openedMask positive_im erode
  let labr : List Nat := ravel (ndLabel bin1).1
  let posr : List Nat := (ravel pos1).map (fun b => if b then 1 else 0)
  let nRows := labr.foldr Nat.max 0 + 1
  let nCols := posr.foldr Nat.max 0 + 1
  if nCols < 2 then
    .error "IndexError: index 1 is out of bounds for axis 1 with size 1"
  else
    let pairs := labr.zip posr
    let countAt : Nat → Nat → Nat := fun r c =>
      (pairs.filter (fun p => p.1 == r && p.2 == c)).length
    let rowTot : Nat → Nat := fun r => countAt r 0 + countAt r 1
    let means : List PyF := (List.range nRows).map (fun r =>
      if rowTot r = 0 then PyF.nan
      else PyF.num ((countAt r 1 : ℚ) / (rowTot r : ℚ)))
    let posFlags : List Bool := (means.drop 1).map (fun v => pyGt v overlap_thresh)
    let f : PyF :=
      if posFlags.length = 0 then PyF.nan
      else PyF.num ((posFlags.count true : ℚ) / (posFlags.length : ℚ))
    .ok ([f], [fracName bin_name positive_name erode overlap_thresh])

/-- Foreground of a "bool or int" image: nonzero pixels (what
`scipy.ndimage.label` treats as objects). -/
def toMask (m : Mat Nat) : Mat Bool := m.map (fun row => row.map (fun v => v != 0))

/-- Lexicographic order on pixel pairs, the order `np.unique` sorts rows in. -/
def insertSortedPair (x : Nat × Nat) : List (Nat × Nat) → List (Nat × Nat)
  | [] => [x]
  | y :: ys =>
    if x.1 < y.1 ∨ (x.1 = y.1 ∧ x.2 ≤ y.2) then x :: y :: ys
    else y :: insertSortedPair x ys

/-- Lexicographic insertion sort on pixel pairs. -/
def sortPairs (l : List (Nat × Nat)) : List (Nat × Nat) := l.foldr insertSortedPair []

/-- `skimage.util.unique_rows` on a 2-column table: sort rows
lexicographically and drop duplicates. -/
def unique_rows (l : List (Nat × Nat)) : List (Nat × Nat) := (sortPairs l).dedup

/-- Length of the array `np.bincount(l, minlength)` returns. -/
def bcLen (l : List Nat) (minlength : Nat) : Nat :=
  Nat.max (if l.isEmpty then 0 else l.foldr Nat.max 0 + 1) minlength

/-- `np.bincount`: entry `i` counts the occurrences of `i` in `l`. -/
def bincount (l : List Nat) (minlength : Nat) : List Nat :=
  (List.range (bcLen l minlength)).map (fun i => l.count i)

/-- Addition of Python floats: NaN (and masked values) propagate. -/
def pyAdd : PyF → PyF → PyF
  | .num a, .num b => .num (a + b)
  | .nan, _ => .nan
  | .masked, _ => .masked
  | .num _, .nan => .nan
  | .num _, .masked => .masked

/-- `np.sum` over a vector of Python floats. -/
def pySum (l : List PyF) : PyF := l.foldr pyAdd (PyF.num 0)

/-- The deduplicatable sub-object/container pixel-pair table of
`nuclei_per_cell_histogram`: ravelled label pairs with the rows whose label
sum is zero (background under background) removed. -/
def npchPairs (nuc_im cell_im : Mat Nat) : List (Nat × Nat) :=
  ((ravel (ndLabel (toMask nuc_im)).1).zip (ravel (ndLabel (toMask cell_im)).1)).filter
    (fun p => p.1 + p.2 != 0)

/-- The deduplicated match table (`util.unique_rows(match)`). -/
def npchMatch (nuc_im cell_im : Mat Nat) : List (Nat × Nat) :=
  unique_rows (npchPairs nuc_im cell_im)

/-- `cells = np.bincount(match[:, 1])`: the per-container-label counts of
deduplicated pairs. -/
def npchCells (nuc_im cell_im : Mat Nat) : List Nat :=
  bincount ((npchMatch nuc_im cell_im).map (fun p => p.2)) 0

/-- The code's per-container sub-object count for container label `c`. -/
def codeSubobjectCount (nuc_im cell_im : Mat Nat) (c : Nat) : Nat :=
  (npchCells nuc_im cell_im).getD c 0

/-- Claim-side definition, following the spec's words: the number of
distinct *positive* sub-object labels whose pixels overlap container `c`,
computed from the deduplicated pixel-pair table with both-zero pairs
excluded. -/
def claimSubobjectCount (nuc_im cell_im : Mat Nat) (c : Nat) : Nat :=
  ((npchPairs nuc_im cell_im).toFinset.filter (fun p => p.2 = c ∧ p.1 ≠ 0)).card

/-- The number of distinct sub-object labels — background label 0 included —
paired with container `c` in the deduplicated table. -/
def pairedLabelCount (nuc_im cell_im : Mat Nat) (c : Nat) : Nat :=
  ((npchPairs nuc_im cell_im).toFinset.filter (fun p => p.2 = c)).card

/-- `nhist = np.bincount(cells, minlength=max_value + 2)`. -/
def npchNhist (nuc_im cell_im : Mat Nat) (max_value : Nat) : List Nat :=
  bincount (npchCells nuc_im cell_im) (max_value + 2)

/-- The unnormalised histogram: buckets `0..max_value` plus the collapsed
overflow bucket `fs[max_value + 1] = sum(nhist[max_value + 1:])`. -/
def npchFsN (nuc_im cell_im : Mat Nat) (max_value : Nat) : List Nat :=
  (npchNhist nuc_im cell_im max_value).take (max_value + 1) ++
    [((npchNhist nuc_im cell_im max_value).drop (max_value + 1)).sum]

/-- `features.nuclei_per_cell_histogram`: label both images, build the
deduplicated pixel-pair table, count pairs per container label, histogram
those counts into buckets `0..max_value` plus an overflow bucket, and
normalise by the total (`0/0` giving NaN when the table is empty). -/
def nuclei_per_cell_histogram (nuc_im cell_im : Mat Nat) (max_value : Nat) :
    List PyF × List String :=
  let names := ((List.range (max_value + 1)).map
      (fun n => "cells-with-" ++ toString n ++ "-nuclei")) ++
    ["cells-with->" ++ toString max_value ++ "-nuclei"]
  let total : Nat := (npchNhist nuc_im cell_im max_value).sum
  let fs : List PyF := (npchFsN nuc_im cell_im max_value).map (fun (x : Nat) =>
    if total = 0 then PyF.nan else PyF.num ((x : ℚ) / (total : ℚ)))
  (fs, names)

/-- The floating-point services the extractors call out to.  Their exact
values are library floating-point computations (skimage region properties,
Otsu and local thresholds, square roots and trigonometry) that no claim
inspects, so the embedding abstracts them as parameters and quantifies the
theorems over them. -/
structure ImageOps where
  otsu : Mat ℚ → ℚ
  threshold_local : Mat ℚ → Nat → Nat → Nat → ℚ
  regionprop : String → List (Nat × Nat) → Mat ℚ → ℚ
  sqrt : ℚ → ℚ
  sin : ℚ → ℚ
  cos : ℚ → ℚ
  arccos : ℚ → ℚ
  pi : ℚ

/-- An explicit random source: the state of a `numpy.random.RandomState`. -/
structure RState where
  seq : Nat → Nat

/-- `numpy.random.RandomState.randint(low, high, size)`: raises `ValueError`
when `high <= low` (notably when zero objects are available to sample),
otherwise draws `size` values in `[low, high)`. -/
def randint (r : RState) (lo hi : Nat) (size : Nat) : Except Err (List Nat) :=
  if hi ≤ lo then .error "ValueError: low >= high"
  else .ok ((List.range size).map (fun i => lo + r.seq i % (hi - lo)))

/-- Modelled from the spec: `microscopium._util.normalise_random_state` is
imported by `features.py` but its module is not under `src/`.  Per the spec
(sections 5 and 9) it only normalises the caller's seed or generator into an
explicit random source; the embedding passes that source around directly. -/
def normalise_random_state (r : RState) : RState := r

/-- Insertion into a sorted list of rationals. -/
def insertSortedQ (x : ℚ) : List ℚ → List ℚ
  | [] => [x]
  | y :: ys => if x ≤ y then x :: y :: ys else y :: insertSortedQ x ys

/-- Insertion sort on rationals (`np.sort` of the compressed data). -/
def sortQ (l : List ℚ) : List ℚ := l.foldr insertSortedQ []

/-- `scipy.stats.mstats.mquantiles` on one variable with the default plotting
positions `alphap = betap = 0.4`: empty data yields masked values, a single
point is repeated, otherwise the order statistics are interpolated at
`aleph = n*p + (0.4 + 0.2*p)` clipped into `[1, n-1]`. -/
def mquantiles1D (qs : List ℚ) (data : List ℚ) : List PyF :=
  let x := sortQ data
  let n := x.length
  if n = 0 then qs.map (fun _ => PyF.masked)
  else if n = 1 then qs.map (fun _ => PyF.num (x.getD 0 0))
  else qs.map (fun p =>
    let aleph : ℚ := (n : ℚ) * p + (2 / 5 + p / 5)
    let alephC : ℚ := max 1 (min aleph ((n : ℚ) - 1))
    let k : Nat := (Int.floor alephC).toNat
    let gamma : ℚ := max 0 (min (aleph - (k : ℚ)) 1)
    PyF.num ((1 - gamma) * x.getD (k - 1) 0 + gamma * x.getD k 0))

/-- The pixels carrying label `l` (the region of one labelled object). -/
def regionPixels (lab : Mat Nat) (l : Nat) : List (Nat × Nat) :=
  (List.range (height lab)).flatMap (fun i =>
    ((List.range (width lab)).filter (fun j => getN lab i j == l)).map (fun j => (i, j)))

/-- The 2D property list of `object_features` (3D drops eccentricity; the
embedding fixes two-dimensional inputs, the case all the claims exercise). -/
def prop_names_2d : List String :=
  ["area", "eccentricity", "euler_number", "extent", "min_intensity",
   "mean_intensity", "max_intensity", "solidity"]

/-- The shared quantile set `[0.05, 0.25, 0.5, 0.75, 0.95]`. -/
def default_quantiles : List ℚ := [1 / 20, 1 / 4, 1 / 2, 3 / 4, 19 / 20]

/-- Python `int(q * 100)` for the percentile name suffixes. -/
def pctInt (q : ℚ) : Int := Int.floor (q * 100)

/-- The sampled object indices: all objects when `sample_size is None`,
otherwise `random.randint(0, n_objs, size=sample_size)`. -/
def sampleIndices (sample_size : Option Nat) (n_objs : Nat) (random : RState) :
    Except Err (List Nat) :=
  match sample_size with
  | none => .ok (List.range n_objs)
  | some s => randint random 0 n_objs s

/-- `features.object_features`: open the binary image (radius `erode`,
default 2), label it, optionally sample object indices, tabulate the region
properties of the sampled objects, and emit the true object count followed
by the per-property quantiles (property-major `.T.ravel()`, matching the
names built from `itertools.product(prop_names, quantiles)`). -/
def object_features (ops : ImageOps) (bin_im : Mat Bool) (im : Mat ℚ) (erode : Nat)
    (sample_size : Option Nat) (random_seed : RState) :
    Except Err (List PyF × List String) :=
  let random := normalise_random_state random_seed
  let bin1 := openedMask bin_im erode
  let labn := ndLabel bin1
  match sampleIndices sample_size labn.2 random with
  | .error e => .error e
  | .ok sample_idx =>
    let objects := (List.range labn.2).map (fun k => regionPixels labn.1 (k + 1))
    let properties : List (List ℚ) := sample_idx.map (fun j =>
      prop_names_2d.map (fun p => ops.regionprop p (objects.getD j []) im))
    let cols := (List.range prop_names_2d.length).map (fun c =>
      properties.map (fun row => row.getD c 0))
    let feature_quantiles := cols.map (mquantiles1D default_quantiles)
    let fs := PyF.num (labn.2 : ℚ) :: feature_quantiles.flatten
    let names := "num-objs" :: (prop_names_2d.map (fun p =>
      default_quantiles.map (fun q => p ++ "-percentile" ++ toString (pctInt q)))).flatten
    .ok (fs, names)

/-- The threshold argument as `intensity_object_features` receives it: a
scalar, or (as `default_feature_map` passes it) a whole tuple. -/
inductive NPThr where
  | scalar (t : ℚ)
  | arr (ts : List ℚ)

/-- `im > t` for a scalar threshold. -/
def gtScalarMat (im : Mat ℚ) (t : ℚ) : Mat Bool :=
  im.map (fun row => row.map (fun (v : ℚ) => decide (t < v)))

/-- NumPy `im > threshold` with broadcasting: a length-`k` 1-D threshold
broadcasts against an `(M, N)` image only when `k = N` or `k = 1` (each
threshold entry then applying to one image column); otherwise `ValueError`. -/
def gtBroadcast (im : Mat ℚ) (thr : NPThr) : Except Err (Mat Bool) :=
  match thr with
  | .scalar t => .ok (gtScalarMat im t)
  | .arr ts =>
    if ts.length = width im ∨ ts.length = 1 then
      .ok (im.map (fun row => row.enum.map (fun p =>
        decide (ts.getD (if ts.length = 1 then 0 else p.1) 0 < p.2))))
    else .error "ValueError: operands could not be broadcast together"

/-- `features.intensity_object_features`: with an explicit threshold,
threshold the image and run `object_features`; with `threshold=None`,
produce the Otsu block and (the input being 2D) also the local-adaptive
block, prefixing and concatenating both. -/
def intensity_object_features (ops : ImageOps) (im : Mat ℚ) (threshold : Option NPThr)
    (adaptive_t_radius : Nat) (sample_size : Option Nat) (random_seed : RState) :
    Except Err (List PyF × List String) :=
  match threshold with
  | none =>
    let tim1 := gtScalarMat im (ops.otsu im)
    match object_features ops tim1 im 2 sample_size random_seed with
    | .error e => .error e
    | .ok (f1, names1) =>
      let names1A := names1.map (fun nm => "otsu-threshold-" ++ nm)
      let tim2 := mkMat (height im) (width im) (fun i j =>
        decide (ops.threshold_local im adaptive_t_radius i j < getQ im i j))
      match object_features ops tim2 im 2 sample_size random_seed with
      | .error e => .error e
      | .ok (f2, names2) =>
        let names2A := names2.map (fun nm => "adaptive-threshold-" ++ nm)
        .ok (f1 ++ f2, names1A ++ names2A)
  | some thr =>
    match gtBroadcast im thr with
    | .error e => .error e
    | .ok tim => object_features ops tim im 2 sample_size random_seed

/-- The labels present in a label image, ascending (the order
`measure.regionprops` returns objects in). -/
def presentLabels (lab : Mat Nat) : List Nat := sortedNonzeroDistinct (ravel lab)

/-- The centroid of a region: the mean of its pixel coordinates. -/
def centroid (pix : List (Nat × Nat)) : ℚ × ℚ :=
  ((pix.map (fun p => (p.1 : ℚ))).sum / (pix.length : ℚ),
   (pix.map (fun p => (p.2 : ℚ))).sum / (pix.length : ℚ))

/-- The centroids of all labelled objects, in label order. -/
def centroidsOf (lab : Mat Nat) : List (ℚ × ℚ) :=
  (presentLabels lab).map (fun l => centroid (regionPixels lab l))

/-- `nearest_neighbors` accepts a boolean mask (auto-labelled) or an
already-labelled integer image. -/
inductive LabInput where
  | boolMask (m : Mat Bool)
  | labels (m : Mat Nat)

/-- The label image `nearest_neighbors` works on. -/
def nnLabelImage : LabInput → Mat Nat
  | .boolMask m => (ndLabel m).1
  | .labels m => m

/-- The number of objects `nearest_neighbors` sees (one per present label). -/
def nnNumObjs (lab_input : LabInput) : Nat :=
  (centroidsOf (nnLabelImage lab_input)).length

/-- Squared Euclidean distance between two points. -/
def sqDist (a b : ℚ × ℚ) : ℚ := (a.1 - b.1) ^ 2 + (a.2 - b.2) ^ 2

/-- Insertion into a list of (squared distance, index) pairs sorted by
distance with index tie-break. -/
def insertSortedDist (x : ℚ × Nat) : List (ℚ × Nat) → List (ℚ × Nat)
  | [] => [x]
  | y :: ys =>
    if x.1 < y.1 ∨ (x.1 = y.1 ∧ x.2 ≤ y.2) then x :: y :: ys
    else y :: insertSortedDist x ys

/-- Sort (squared distance, index) pairs. -/
def sortDist (l : List (ℚ × Nat)) : List (ℚ × Nat) := l.foldr insertSortedDist []

/-- One row of `kneighbors`: the `k` nearest points to point `i` (the point
itself first at distance zero), as (squared distance, index) pairs. -/
def kneighborsRow (pts : List (ℚ × ℚ)) (i k : Nat) : List (ℚ × Nat) :=
  (sortDist (pts.enum.map (fun p => (sqDist (pts.getD i (0, 0)) p.2, p.1)))).take k

/-- `normalize_vectors` on a single row: divide by the computed norm, a zero
norm being replaced by 1. -/
def normalizeVec (ops : ImageOps) (v : ℚ × ℚ) : ℚ × ℚ :=
  let nrm := ops.sqrt (v.1 ^ 2 + v.2 ^ 2)
  let nrm1 := if nrm = 0 then 1 else nrm
  (v.1 / nrm1, v.2 / nrm1)

/-- `triplet_angles` on one index triplet: the angle at `root` between the
rays to the two leaves, the cosine clamped into `[-1, 1]`. -/
def tripletAngle (ops : ImageOps) (pts : List (ℚ × ℚ)) (root leaf1 leaf2 : Nat) : ℚ :=
  let pr := pts.getD root (0, 0)
  let p1 := pts.getD leaf1 (0, 0)
  let p2 := pts.getD leaf2 (0, 0)
  let u := normalizeVec ops (p1.1 - pr.1, p1.2 - pr.2)
  let v := normalizeVec ops (p2.1 - pr.1, p2.2 - pr.2)
  let cosine := u.1 * v.1 + u.2 * v.2
  let cosineC := max (-1) (min 1 cosine)
  ops.arccos cosineC

/-- `features.nearest_neighbors`: label a boolean input, compute centroids,
fit a `(n+1)`-nearest-neighbour index (raising when there are no samples or
fewer samples than `n+1`), take the triplet angle of each object with its
two nearest neighbours (needing three index columns, hence an `IndexError`
when `n + 1 < 3`), fold angles above pi, replace the self-distance column by
the angle, prepend sine and cosine columns, and reduce every column by the
quantile set (`mquantiles(..., axis=0).ravel()`, quantile-major — the names
are built colname-major from `it.product(colnames, quantiles)`). -/
def nearest_neighbors (ops : ImageOps) (lab_input : LabInput) (n : Nat)
    (quantiles : List ℚ) : Except Err (List PyF × List String) :=
  let cents := centroidsOf (nnLabelImage lab_input)
  if cents.length = 0 then
    .error "ValueError: Found array with 0 samples"
  else if cents.length < n + 1 then
    .error "ValueError: Expected n_neighbors <= n_samples_fit"
  else if n + 1 < 3 then
    .error "IndexError: index 2 is out of bounds for axis 1"
  else
    let rows := (List.range cents.length).map (fun i => kneighborsRow cents i (n + 1))
    let indices := rows.map (fun row => row.map (fun p => p.2))
    let dists := rows.map (fun row => row.map (fun p => ops.sqrt p.1))
    let angles0 := indices.map (fun row =>
      tripletAngle ops cents (row.getD 0 0) (row.getD 1 0) (row.getD 2 0))
    let angles := angles0.map (fun a => if ops.pi < a then 2 * ops.pi - a else a)
    let distangle := (dists.zip angles).map (fun p => p.2 :: p.1.drop 1)
    let features := (distangle.zip angles).map (fun p =>
      ops.sin p.2 :: ops.cos p.2 :: p.1)
    let cols := (List.range (n + 3)).map (fun c =>
      features.map (fun row => row.getD c 0))
    let colQuants := cols.map (mquantiles1D quantiles)
    let nei := ((List.range quantiles.length).map (fun k =>
      colQuants.map (fun cq => cq.getD k PyF.masked))).flatten
    let colnames := ["sin-theta", "cos-theta", "theta"] ++
      (List.range n).map (fun i => "d-neighbor-" ++ toString (i + 1) ++ "-")
    let names := (colnames.map (fun cn =>
      quantiles.map (fun q => cn ++ "-percentile-" ++ toString (pctInt q)))).flatten
    .ok (nei, names)

/-- A multi-channel image: rows of pixels, each pixel a list of channel
intensities (`shape (M, N, C)`). -/
abbrev MCImage := List (List (List ℚ))

/-- `image.shape[-1]`. -/
def nchannels (image : MCImage) : Nat := ((image.headD []).headD []).length

/-- `image[..., i]`. -/
def channelOf (image : MCImage) (i : Nat) : Mat ℚ :=
  image.map (fun row => row.map (fun px => px.getD i 0))

/-- The orchestrator's channel loop: run `intensity_object_features` on each
channel (passing the *whole* `threshold` argument through unchanged, as the
source does), prefix the names with the channel name, and accumulate. -/
def dfmLoop (ops : ImageOps) (threshold : Option NPThr) (sample_size : Option Nat)
    (random_seed : RState) :
    List (Mat ℚ × String) → List PyF → List String → Except Err (List PyF × List String)
  | [], accF, accN => .ok (accF, accN)
  | (im, pfx) :: rest, accF, accN =>
    match intensity_object_features ops im threshold 51 sample_size random_seed with
    | .error e => .error e
    | .ok (fs, names) =>
      dfmLoop ops threshold sample_size random_seed rest (accF ++ fs)
        (accN ++ names.map (fun nm => pfx ++ "-" ++ nm))

/-- `features.default_feature_map`: select channels (all by default), name
them (`chan{i}` by default), and concatenate the per-channel feature blocks
of `intensity_object_features` in channel order. -/
def default_feature_map (ops : ImageOps) (image : MCImage)
    (threshold : Option (List ℚ)) (channels : Option (List Nat))
    (channel_names : Option (List String)) (sample_size : Option Nat)
    (random_seed : RState) : Except Err (List PyF × List String) :=
  let chans := channels.getD (List.range (nchannels image))
  let images := chans.map (channelOf image)
  let cnames := channel_names.getD (chans.map (fun i => "chan" ++ toString i))
  dfmLoop ops (threshold.map NPThr.arr) sample_size random_seed (images.zip cnames) [] []

/-- Whether a result's feature vector and name list have equal lengths
(vacuously true for a raised exception, which returns nothing). -/
def lensOk (e : Except Err (List PyF × List String)) : Bool :=
  match e with
  | .ok p => p.1.length == p.2.length
  | .error _ => true

/-- Whether a result is a raised exception. -/
def isError (e : Except Err (List PyF × List String)) : Bool :=
  match e with
  | .error _ => true
  | .ok _ => false

/-- A concrete instantiation of the abstract floating-point services, used
to evaluate the embedding on concrete inputs. -/
def trivOps : ImageOps where
  otsu := fun _ => 0
  threshold_local := fun _ _ _ _ => 0
  regionprop := fun _ _ _ => 0
  sqrt := fun _ => 0
  sin := fun _ => 0
  cos := fun _ => 0
  arccos := fun _ => 0
  pi := 0

/-- A concrete random source. -/
def rZero : RState := ⟨fun _ => 0⟩

theorem getD_range_map {α : Type} (n c : Nat) (f : Nat → α) (d : α) :
    ((List.range n).map f).getD c d = if c < n then f c else d := by
  rw [List.getD_eq_getElem?_getD, List.getElem?_map]
  by_cases h : c < n
  · rw [List.getElem?_eq_getElem (by simpa using h)]
    simp [h]
  · rw [List.getElem?_eq_none (by simpa using Nat.le_of_not_lt h)]
    simp [h]

theorem le_foldr_max {l : List Nat} {x : Nat} (h : x ∈ l) : x ≤ l.foldr Nat.max 0 := by
  induction l with
  | nil => cases h
  | cons a l ih =>
    rcases List.mem_cons.mp h with rfl | h
    · exact Nat.le_max_left _ _
    · exact Nat.le_trans (ih h) (Nat.le_max_right _ _)

theorem mem_lt_bcLen {l : List Nat} {x : Nat} (h : x ∈ l) (m : Nat) : x < bcLen l m := by
  have hne : l.isEmpty = false := by
    cases l with
    | nil => cases h
    | cons a l => rfl
  unfold bcLen
  rw [hne]
  calc x < l.foldr Nat.max 0 + 1 := Nat.lt_succ_of_le (le_foldr_max h)
    _ ≤ _ := Nat.le_max_left _ _

theorem bincount_getD (l : List Nat) (m c : Nat) : (bincount l m).getD c 0 = l.count c := by
  unfold bincount
  rw [getD_range_map]
  by_cases h : c < bcLen l m
  · simp [h]
  · have : c ∉ l := fun hc => h (mem_lt_bcLen hc m)
    simp [h, List.count_eq_zero.mpr this]

theorem bincount_length_ge (l : List Nat) (m : Nat) : m ≤ (bincount l m).length := by
  unfold bincount bcLen
  simp [Nat.le_max_right]

theorem mem_insertSortedPair {x y : Nat × Nat} {l : List (Nat × Nat)} :
    x ∈ insertSortedPair y l ↔ x = y ∨ x ∈ l := by
  induction l with
  | nil => simp [insertSortedPair]
  | cons a l ih =>
    unfold insertSortedPair
    by_cases h : y.1 < a.1 ∨ (y.1 = a.1 ∧ y.2 ≤ a.2)
    · simp [h]
    · simp only [h, if_false, List.mem_cons, ih]
      tauto

theorem mem_sortPairs {x : Nat × Nat} {l : List (Nat × Nat)} :
    x ∈ sortPairs l ↔ x ∈ l := by
  induction l with
  | nil => simp [sortPairs]
  | cons a l ih =>
    show x ∈ insertSortedPair a (sortPairs l) ↔ _
    rw [mem_insertSortedPair, ih]
    simp

theorem unique_rows_nodup (l : List (Nat × Nat)) : (unique_rows l).Nodup :=
  List.nodup_dedup _

theorem mem_unique_rows {x : Nat × Nat} {l : List (Nat × Nat)} :
    x ∈ unique_rows l ↔ x ∈ l := by
  unfold unique_rows
  rw [List.mem_dedup, mem_sortPairs]

theorem unique_rows_toFinset (l : List (Nat × Nat)) :
    (unique_rows l).toFinset = l.toFinset :=
  List.toFinset.ext fun _ => mem_unique_rows

theorem countP_nodup_eq_card_filter {l : List (Nat × Nat)} (hl : l.Nodup)
    (p : Nat × Nat → Bool) : l.countP p = (l.toFinset.filter (p ·)).card := by
  rw [← List.toFinset_filter, List.toFinset_card_of_nodup (hl.filter p),
    List.countP_eq_length_filter]

theorem sum_map_add {α : Type} (l : List α) (f g : α → Nat) :
    (l.map (fun x => f x + g x)).sum = (l.map f).sum + (l.map g).sum := by
  induction l with
  | nil => rfl
  | cons a l ih => simp [ih]; omega

theorem sum_range_indicator {a n : Nat} (h : a < n) :
    ((List.range n).map (fun i => if a = i then 1 else 0)).sum = 1 := by
  induction n with
  | zero => cases h
  | succ n ih =>
    rw [List.range_succ, List.map_append, List.sum_append]
    by_cases ha : a < n
    · have : a ≠ n := Nat.ne_of_lt ha
      simp [ih ha, this]
    · have han : a = n := Nat.le_antisymm (Nat.lt_succ_iff.mp h) (Nat.le_of_not_lt ha)
      subst han
      have hz : ((List.range a).map (fun i => if a = i then 1 else 0)).sum = 0 := by
        apply List.sum_eq_zero
        intro x hx
        rcases List.mem_map.mp hx with ⟨i, hi, rfl⟩
        have : a ≠ i := by
          rcases List.mem_range.mp hi with hi2
          omega
        simp [this]
      simp [hz]

theorem sum_range_count (l : List Nat) (n : Nat) (h : ∀ x ∈ l, x < n) :
    ((List.range n).map (fun i => l.count i)).sum = l.length := by
  induction l with
  | nil => simp
  | cons a l ih =>
    have hcount : ∀ i : Nat, (a :: l).count i = l.count i + (if a = i then 1 else 0) := by
      intro i
      rw [List.count_cons]
      congr 1
      by_cases hai : a = i
      · simp [hai]
      · simp [hai, fun h => hai (Eq.symm h)]
    have : (List.range n).map (fun i => (a :: l).count i) =
        (List.range n).map (fun i => l.count i + (if a = i then 1 else 0)) := by
      simp only [hcount]
    rw [this, sum_map_add, ih (fun x hx => h x (List.mem_cons_of_mem a hx)),
      sum_range_indicator (h a (List.mem_cons_self a l))]
    simp

theorem bincount_sum (l : List Nat) (m : Nat) : (bincount l m).sum = l.length := by
  unfold bincount
  exact sum_range_count l _ (fun x hx => mem_lt_bcLen hx m)

theorem pySum_map_num (l : List Nat) (f : Nat → ℚ) :
    pySum (l.map (fun x => PyF.num (f x))) = PyF.num ((l.map f).sum) := by
  induction l with
  | nil => rfl
  | cons a l ih =>
    show pyAdd (PyF.num (f a)) (pySum (l.map (fun x => PyF.num (f x)))) = _
    rw [ih]
    simp [pyAdd]

theorem getN_mem_ravel {m : Mat Nat} {i j : Nat} (h : getN m i j ≠ 0) :
    getN m i j ∈ ravel m := by
  unfold getN at h ⊢
  by_cases hi : i < m.length
  · have hrow : m.getD i [] = m[i] := List.getD_eq_getElem m [] hi
    rw [hrow] at h ⊢
    by_cases hj : j < m[i].length
    · have hval : m[i].getD j 0 = m[i][j] := List.getD_eq_getElem m[i] 0 hj
      rw [hval] at h ⊢
      exact List.mem_flatten.mpr ⟨m[i], List.getElem_mem hi, List.getElem_mem hj⟩
    · rw [List.getD_eq_default m[i] 0 (Nat.le_of_not_lt hj)] at h
      exact absurd rfl h
  · rw [List.getD_eq_default m [] (Nat.le_of_not_lt hi)] at h
    exact absurd rfl h

theorem height_toMask (m : Mat Nat) : height (toMask m) = height m := by
  unfold height toMask
  simp

theorem width_toMask (m : Mat Nat) : width (toMask m) = width m := by
  unfold width toMask
  cases m with
  | nil => rfl
  | cons r rs => simp

theorem ravel_mkMat_length {α : Type} (h w : Nat) (f : Nat → Nat → α) :
    (ravel (mkMat h w f)).length = h * w := by
  unfold ravel mkMat
  rw [List.length_flatten, List.map_map]
  have : (List.range h).map (List.length ∘ fun i => (List.range w).map (f i)) =
      (List.range h).map (fun _ => w) := by
    apply List.map_congr_left
    intro i _
    simp
  rw [this, List.map_const', List.sum_const_nat]
  simp [Nat.mul_comm]

theorem ravel_ndLabel_length (m : Mat Bool) :
    (ravel (ndLabel m).1).length = height m * width m := by
  unfold ndLabel
  exact ravel_mkMat_length _ _ _

theorem zip_mem_of_snd {l1 l2 : List Nat} {v : Nat} (hv : v ∈ l2)
    (hlen : l1.length = l2.length) : ∃ x, (x, v) ∈ l1.zip l2 := by
  rcases List.mem_iff_getElem.mp hv with ⟨k, hk, rfl⟩
  have hk1 : k < l1.length := by omega
  refine ⟨l1[k], ?_⟩
  apply List.mem_iff_getElem?.mpr
  refine ⟨k, ?_⟩
  rw [List.getElem?_zip_eq_some]
  constructor
  · exact List.getElem?_eq_getElem hk1
  · exact List.getElem?_eq_getElem hk

theorem bcLen_pos {l : List Nat} (h : l ≠ []) (m : Nat) : 0 < bcLen l m := by
  unfold bcLen
  have : l.isEmpty = false := by
    cases l with
    | nil => exact absurd rfl h
    | cons a t => rfl
  rw [this]
  exact Nat.lt_of_lt_of_le (Nat.succ_pos _) (Nat.le_max_left _ _)

theorem sum_map_cast_div (l : List Nat) (t : ℚ) :
    (l.map (fun (x : Nat) => (x : ℚ) / t)).sum = ((l.sum : ℚ)) / t := by
  induction l with
  | nil => simp
  | cons a l ih =>
    rw [List.map_cons, List.sum_cons, ih, List.sum_cons, Nat.cast_add, add_div]

/-- C7 (amended): in `nuclei_per_cell_histogram`, the per-container count
for container label `c` equals the number of *distinct sub-object labels,
label 0 included,* paired with `c` in the deduplicated pixel-pair table —
that is, the distinct positive sub-objects overlapping the container, plus
one whenever the container has at least one pixel outside every sub-object
(and the background, container label 0, is itself counted as a container
when nuclei lie outside all cells). -/
theorem claim_C7_amended (nuc_im cell_im : Mat Nat) (c : Nat) :
    codeSubobjectCount nuc_im cell_im c = pairedLabelCount nuc_im cell_im c := by
  unfold codeSubobjectCount npchCells pairedLabelCount
  rw [bincount_getD, List.count_eq_countP, List.countP_map,
    countP_nodup_eq_card_filter
      (show (npchMatch nuc_im cell_im).Nodup from unique_rows_nodup _)]
  rw [show (npchMatch nuc_im cell_im).toFinset = (npchPairs nuc_im cell_im).toFinset from
    unique_rows_toFinset _]
  apply congrArg
  apply Finset.filter_congr
  intro x _
  simp

theorem npch_total_ne_zero {nuc_im cell_im : Mat Nat} (max_value : Nat)
    (hh : height nuc_im = height cell_im) (hw : width nuc_im = width cell_im)
    (hobj : ∃ i j, getN (ndLabel (toMask cell_im)).1 i j ≠ 0) :
    (npchNhist nuc_im cell_im max_value).sum ≠ 0 := by
  obtain ⟨i, j, hne⟩ := hobj
  have hv : getN (ndLabel (toMask cell_im)).1 i j ∈ ravel (ndLabel (toMask cell_im)).1 :=
    getN_mem_ravel hne
  have hlen : (ravel (ndLabel (toMask nuc_im)).1).length =
      (ravel (ndLabel (toMask cell_im)).1).length := by
    rw [ravel_ndLabel_length, ravel_ndLabel_length, height_toMask, height_toMask,
      width_toMask, width_toMask, hh, hw]
  obtain ⟨x, hx⟩ := zip_mem_of_snd hv hlen
  have hpair : (x, getN (ndLabel (toMask cell_im)).1 i j) ∈ npchPairs nuc_im cell_im := by
    unfold npchPairs
    apply List.mem_filter.mpr
    refine ⟨hx, ?_⟩
    simp only [bne_iff_ne, ne_eq]
    omega
  have hmatch : (x, getN (ndLabel (toMask cell_im)).1 i j) ∈ npchMatch nuc_im cell_im :=
    mem_unique_rows.mpr hpair
  have hmapne : ((npchMatch nuc_im cell_im).map (fun p => p.2)) ≠ [] := by
    intro h0
    have hm := List.mem_map_of_mem (fun p => p.2) hmatch
    rw [h0] at hm
    cases hm
  have hcellslen : 0 < (npchCells nuc_im cell_im).length := by
    unfold npchCells bincount
    simpa using bcLen_pos hmapne 0
  unfold npchNhist
  rw [bincount_sum]
  omega

theorem npch_fs_length (nuc_im cell_im : Mat Nat) (max_value : Nat) :
    (nuclei_per_cell_histogram nuc_im cell_im max_value).1.length = max_value + 2 := by
  unfold nuclei_per_cell_histogram npchFsN
  have h2 : max_value + 2 ≤ (npchNhist nuc_im cell_im max_value).length :=
    bincount_length_ge _ _
  simp only [List.length_map, List.length_append, List.length_take, List.length_cons,
    List.length_nil]
  omega

theorem npch_names_length (nuc_im cell_im : Mat Nat) (max_value : Nat) :
    (nuclei_per_cell_histogram nuc_im cell_im max_value).2.length = max_value + 2 := by
  unfold nuclei_per_cell_histogram
  simp

theorem npch_sum_one {nuc_im cell_im : Mat Nat} (max_value : Nat)
    (hh : height nuc_im = height cell_im) (hw : width nuc_im = width cell_im)
    (hobj : ∃ i j, getN (ndLabel (toMask cell_im)).1 i j ≠ 0) :
    pySum (nuclei_per_cell_histogram nuc_im cell_im max_value).1 = PyF.num 1 := by
  have htot := npch_total_ne_zero max_value hh hw hobj
  have hfs : (nuclei_per_cell_histogram nuc_im cell_im max_value).1 =
      (npchFsN nuc_im cell_im max_value).map (fun (x : Nat) =>
        PyF.num ((x : ℚ) / (((npchNhist nuc_im cell_im max_value).sum : ℚ)))) := by
    unfold nuclei_per_cell_histogram
    simp [htot]
  rw [hfs, pySum_map_num, sum_map_cast_div]
  have hsum : (npchFsN nuc_im cell_im max_value).sum =
      (npchNhist nuc_im cell_im max_value).sum := by
    unfold npchFsN
    rw [List.sum_append, List.sum_cons, List.sum_nil]
    conv_rhs => rw [← List.take_append_drop (max_value + 1)
      (npchNhist nuc_im cell_im max_value), List.sum_append]
    omega
  rw [hsum, div_self]
  exact Nat.cast_ne_zero.mpr htot
theorem mquantiles1D_length (qs data : List ℚ) :
    (mquantiles1D qs data).length = qs.length := by
  unfold mquantiles1D
  by_cases h0 : (sortQ data).length = 0
  · simp [h0]
  · by_cases h1 : (sortQ data).length = 1
    · simp [h0, h1]
    · simp [h0, h1]

theorem length_flatten_of_map {α β : Type} (L : List α) (f : α → List β) (k : Nat)
    (h : ∀ x ∈ L, (f x).length = k) : ((L.map f).flatten).length = L.length * k := by
  induction L with
  | nil => simp
  | cons a t ih =>
    rw [List.map_cons, List.flatten_cons, List.length_append,
      h a (List.mem_cons_self a t), ih (fun x hx => h x (List.mem_cons_of_mem a hx)),
      List.length_cons, Nat.succ_mul]
    omega

theorem object_features_lens (ops : ImageOps) (bin_im : Mat Bool) (im : Mat ℚ)
    (erode : Nat) (ss : Option Nat) (r : RState) :
    lensOk (object_features ops bin_im im erode ss r) = true := by
  cases hs : sampleIndices ss (ndLabel (openedMask bin_im erode)).2
      (normalise_random_state r) with
  | error e => simp only [object_features, hs, lensOk]
  | ok idx =>
    simp only [object_features, hs]
    simp only [lensOk, beq_iff_eq, List.length_cons]
    rw [length_flatten_of_map _ (mquantiles1D default_quantiles) default_quantiles.length
        (fun x _ => mquantiles1D_length _ _),
      length_flatten_of_map prop_names_2d _ default_quantiles.length
        (fun p _ => List.length_map _ _),
      List.length_map, List.length_range]

theorem object_features_none_ok (ops : ImageOps) (bin_im : Mat Bool) (im : Mat ℚ)
    (erode : Nat) (r : RState) :
    isError (object_features ops bin_im im erode none r) = false := by
  rfl

theorem nearest_neighbors_lens (ops : ImageOps) (lab_input : LabInput) (n : Nat)
    (quantiles : List ℚ) : lensOk (nearest_neighbors ops lab_input n quantiles) = true := by
  unfold nearest_neighbors
  by_cases h0 : (centroidsOf (nnLabelImage lab_input)).length = 0
  · simp [h0, lensOk]
  · by_cases h1 : (centroidsOf (nnLabelImage lab_input)).length < n + 1
    · simp [h0, h1, lensOk]
    · by_cases h2 : n + 1 < 3
      · simp [h0, h1, h2, lensOk]
      · simp only [h0, h1, h2, if_false, if_neg, lensOk, beq_iff_eq]
        rw [length_flatten_of_map _ _ (n + 3) (fun k _ => by simp),
          length_flatten_of_map _ _ quantiles.length (fun cn _ => List.length_map _ _)]
        simp only [List.length_range, List.length_append, List.length_cons,
          List.length_nil, List.length_map]
        ring

theorem fraction_positive_lens (bin_im positive_im : Mat Bool) (erode : Nat)
    (overlap_thresh : ℚ) (bin_name positive_name : String) :
    lensOk (fraction_positive bin_im positive_im erode overlap_thresh
      bin_name positive_name) = true := by
  simp only [fraction_positive]
  split
  · rfl
  · rfl

theorem iof_lens (ops : ImageOps) (im : Mat ℚ) (thr : Option NPThr) (radius : Nat)
    (ss : Option Nat) (r : RState) :
    lensOk (intensity_object_features ops im thr radius ss r) = true := by
  cases thr with
  | none =>
    cases h1 : object_features ops (gtScalarMat im (ops.otsu im)) im 2 ss r with
    | error e => simp only [intensity_object_features, h1, lensOk]
    | ok p1 =>
      obtain ⟨f1, names1⟩ := p1
      cases h2 : object_features ops (mkMat (height im) (width im) (fun i j =>
          decide (ops.threshold_local im radius i j < getQ im i j))) im 2 ss r with
      | error e => simp only [intensity_object_features, h1, h2, lensOk]
      | ok p2 =>
        obtain ⟨f2, names2⟩ := p2
        have e1 := object_features_lens ops (gtScalarMat im (ops.otsu im)) im 2 ss r
        rw [h1] at e1
        simp only [lensOk, beq_iff_eq] at e1
        have e2 := object_features_lens ops (mkMat (height im) (width im) (fun i j =>
          decide (ops.threshold_local im radius i j < getQ im i j))) im 2 ss r
        rw [h2] at e2
        simp only [lensOk, beq_iff_eq] at e2
        simp only [intensity_object_features, h1, h2, lensOk, beq_iff_eq,
          List.length_append, List.length_map]
        omega
  | some t =>
    cases hg : gtBroadcast im t with
    | error e => simp only [intensity_object_features, hg, lensOk]
    | ok tim =>
      have := object_features_lens ops tim im 2 ss r
      simp only [intensity_object_features, hg]
      exact this

theorem dfmLoop_lens (ops : ImageOps) (thr : Option NPThr) (ss : Option Nat)
    (r : RState) (l : List (Mat ℚ × String)) :
    ∀ (accF : List PyF) (accN : List String), accF.length = accN.length →
      lensOk (dfmLoop ops thr ss r l accF accN) = true := by
  induction l with
  | nil =>
    intro accF accN h
    simp [dfmLoop, lensOk, h]
  | cons hd tl ih =>
    intro accF accN h
    obtain ⟨im, pfx⟩ := hd
    cases hio : intensity_object_features ops im thr 51 ss r with
    | error e => simp only [dfmLoop, hio, lensOk]
    | ok p =>
      obtain ⟨fs, names⟩ := p
      have hl := iof_lens ops im thr 51 ss r
      rw [hio] at hl
      simp only [lensOk, beq_iff_eq] at hl
      simp only [dfmLoop, hio]
      apply ih
      simp only [List.length_append, List.length_map]
      omega

theorem nn_insufficient_error (ops : ImageOps) (lab_input : LabInput) (n : Nat)
    (quantiles : List ℚ) (h : nnNumObjs lab_input < n + 1) :
    isError (nearest_neighbors ops lab_input n quantiles) = true := by
  unfold nearest_neighbors
  by_cases h0 : (centroidsOf (nnLabelImage lab_input)).length = 0
  · simp [h0, isError]
  · have h1 : (centroidsOf (nnLabelImage lab_input)).length < n + 1 := h
    simp [h0, h1, isError]

theorem anyTrue_false_getD {m : Mat Bool} (h : anyTrue m = false) (i j : Nat) :
    (m.getD i []).getD j false = false := by
  by_cases hi : i < m.length
  · rw [List.getD_eq_getElem m [] hi]
    by_cases hj : j < m[i].length
    · rw [List.getD_eq_getElem _ false hj]
      by_contra hx
      have hxt : m[i][j] = true := by
        cases hv : m[i][j]
        · exact absurd hv hx
        · rfl
      have : anyTrue m = true := by
        unfold anyTrue
        rw [List.any_eq_true]
        refine ⟨m[i], List.getElem_mem hi, ?_⟩
        rw [List.any_eq_true]
        exact ⟨m[i][j], List.getElem_mem hj, by rw [hxt]; rfl⟩
      rw [h] at this
      cases this
    · rw [List.getD_eq_default _ false (Nat.le_of_not_lt hj)]
  · rw [List.getD_eq_default m [] (Nat.le_of_not_lt hi)]
    rfl

theorem anyTrue_false_getB {m : Mat Bool} (h : anyTrue m = false) (i j : Int) :
    getB m i j = false := by
  unfold getB
  split
  · exact anyTrue_false_getD h _ _
  · rfl

theorem anyTrue_mkMat_false {h w : Nat} {f : Nat → Nat → Bool}
    (hf : ∀ i j, f i j = false) : anyTrue (mkMat h w f) = false := by
  unfold anyTrue mkMat
  rw [List.any_eq_false]
  intro row hrow
  rcases List.mem_map.mp hrow with ⟨i, _, rfl⟩
  simp only [List.any_eq_true, not_exists, not_and]
  intro x hx
  rcases List.mem_map.mp hx with ⟨j, _, rfl⟩
  rw [hf i j]
  intro hfalse
  cases hfalse

theorem opening_allFalse (m : Mat Bool) (selem : List (Int × Int))
    (h : anyTrue m = false) : anyTrue (binary_opening m selem) = false := by
  unfold binary_opening dilation
  cases selem with
  | nil =>
    apply anyTrue_mkMat_false
    intro i j
    rfl
  | cons d0 ds =>
    have he : anyTrue (erosion m (d0 :: ds)) = false := by
      unfold erosion
      apply anyTrue_mkMat_false
      intro i j
      have h0 : getB m ((i : Int) + d0.1) ((j : Int) + d0.2) = false :=
        anyTrue_false_getB h _ _
      simp [List.all_cons, h0]
    apply anyTrue_mkMat_false
    intro i j
    rw [List.any_eq_false]
    intro d _
    rw [anyTrue_false_getB he]
    intro hfalse
    cases hfalse

theorem openedMask_allFalse (m : Mat Bool) (erode : Nat) (h : anyTrue m = false) :
    anyTrue (openedMask m erode) = false := by
  unfold openedMask
  split
  · exact opening_allFalse m _ h
  · exact h

theorem anyTrue_false_mem {m : Mat Bool} (h : anyTrue m = false) {b : Bool}
    (hb : b ∈ ravel m) : b = false := by
  cases hbv : b
  · rfl
  · subst hbv
    rcases List.mem_flatten.mp hb with ⟨row, hrow, hbrow⟩
    have : anyTrue m = true := by
      unfold anyTrue
      rw [List.any_eq_true]
      refine ⟨row, hrow, ?_⟩
      rw [List.any_eq_true]
      exact ⟨true, hbrow, rfl⟩
    rw [h] at this
    cases this

theorem anyTrue_exists_mem {m : Mat Bool} (h : anyTrue m = true) : true ∈ ravel m := by
  unfold anyTrue at h
  rw [List.any_eq_true] at h
  rcases h with ⟨row, hrow, hx⟩
  rw [List.any_eq_true] at hx
  rcases hx with ⟨b, hb, hbid⟩
  have : b = true := hbid
  subst this
  exact List.mem_flatten.mpr ⟨row, hrow, hb⟩

theorem foldr_max_zero {l : List Nat} (h : ∀ x ∈ l, x = 0) : l.foldr Nat.max 0 = 0 := by
  induction l with
  | nil => rfl
  | cons a t ih =>
    rw [List.foldr_cons, h a (List.mem_cons_self a t),
      ih (fun x hx => h x (List.mem_cons_of_mem a hx))]
    exact Nat.max_self 0

theorem foldr_max_le {l : List Nat} {k : Nat} (h : ∀ x ∈ l, x ≤ k) :
    l.foldr Nat.max 0 ≤ k := by
  induction l with
  | nil => exact Nat.zero_le k
  | cons a t ih =>
    rw [List.foldr_cons]
    exact Nat.max_le.mpr ⟨h a (List.mem_cons_self a t),
      ih (fun x hx => h x (List.mem_cons_of_mem a hx))⟩

theorem mem_ravel_mkMat {α : Type} {h w : Nat} {f : Nat → Nat → α} {x : α}
    (hx : x ∈ ravel (mkMat h w f)) : ∃ i j, x = f i j := by
  unfold ravel mkMat at hx
  rcases List.mem_flatten.mp hx with ⟨row, hrow, hxrow⟩
  rcases List.mem_map.mp hrow with ⟨i, _, hi⟩
  subst hi
  rcases List.mem_map.mp hxrow with ⟨j, _, hj⟩
  exact ⟨i, j, hj.symm⟩

theorem ndLabel_allFalse_ravel {m : Mat Bool} (h : anyTrue m = false) :
    ∀ x ∈ ravel (ndLabel m).1, x = 0 := by
  intro x hx
  rcases mem_ravel_mkMat hx with ⟨i, j, rfl⟩
  have hcond := anyTrue_false_getD h i j
  simp only [List.getD_eq_getElem?_getD] at hcond
  simp [hcond]

/-- C10: whenever the positive mask contains no `True` pixel while the
reference mask has at least one foreground pixel, `fraction_positive` does
not return a feature pair: the dense co-occurrence matrix has a single
column, and the access to column 1 raises an `IndexError`. -/
theorem claim_C10_empty_positive_error (bin_im positive_im : Mat Bool)
    (erode : Nat) (t : ℚ) (bn pn : String)
    (hpos : anyTrue positive_im = false) (_hbin : anyTrue bin_im = true) :
    fraction_positive bin_im positive_im erode t bn pn =
      .error "IndexError: index 1 is out of bounds for axis 1 with size 1" := by
  have hpos1 : anyTrue (openedMask positive_im erode) = false :=
    openedMask_allFalse _ _ hpos
  have hzero : ∀ x ∈ (ravel (openedMask positive_im erode)).map
      (fun b => if b then 1 else 0), x = (0 : Nat) := by
    intro x hx
    rcases List.mem_map.mp hx with ⟨b, hb, rfl⟩
    rw [anyTrue_false_mem hpos1 hb]
    rfl
  have hmax : ((ravel (openedMask positive_im erode)).map
      (fun b => if b then 1 else 0)).foldr Nat.max 0 = 0 := foldr_max_zero hzero
  simp only [fraction_positive, hmax]
  norm_num

/-- C4 (amended): on a reference mask with zero objects after the optional
opening, `fraction_positive` does not return `0.0`: when the (opened)
positive mask has at least one `True` pixel it returns NaN — the NumPy mean
of the empty `means[1:] > overlap_thresh` array — without raising (the
all-`False` positive-mask case instead fails with an `IndexError`, claim
C10). -/
theorem claim_C4_amended (bin_im positive_im : Mat Bool)
    (erode : Nat) (t : ℚ) (bn pn : String)
    (hbin : anyTrue (openedMask bin_im erode) = false)
    (hpos : anyTrue (openedMask positive_im erode) = true) :
    fraction_positive bin_im positive_im erode t bn pn =
      .ok ([PyF.nan], [fracName bn pn erode t]) := by
  have hlabz : ((ravel (ndLabel (openedMask bin_im erode)).1)).foldr Nat.max 0 = 0 :=
    foldr_max_zero (ndLabel_allFalse_ravel hbin)
  have hposmem : (1 : Nat) ∈ (ravel (openedMask positive_im erode)).map
      (fun b => if b then 1 else 0) :=
    List.mem_map.mpr ⟨true, anyTrue_exists_mem hpos, rfl⟩
  have hposle : ∀ x ∈ (ravel (openedMask positive_im erode)).map
      (fun b => if b then 1 else 0), x ≤ 1 := by
    intro x hx
    rcases List.mem_map.mp hx with ⟨b, _, rfl⟩
    cases b
    · simp
    · simp
  have hposmax : ((ravel (openedMask positive_im erode)).map
      (fun b => if b then 1 else 0)).foldr Nat.max 0 = 1 := by
    have h1 := le_foldr_max hposmem
    have h2 := foldr_max_le hposle
    omega
  simp only [fraction_positive, hlabz, hposmax]
  norm_num [show List.range 1 = [0] from rfl]
/-- C1: `default_feature_map` does *not* hand each channel its own entry of
the per-channel threshold tuple — it passes the whole tuple straight through
to `intensity_object_features` for every channel, where `im > threshold`
broadcasts the 3-tuple against the channel's row width.  On a 2×2×3 image
with threshold tuple `(0.5, 0.5, 0.5)` this raises a broadcast `ValueError`
on the very first channel (and even on width-3 images it would compare each
*column* against a different tuple entry rather than using `threshold[i]`),
contradicting the claim and the function's own docstring. -/
theorem claim_C1_threshold_tuple_broadcast (ops : ImageOps) (ss : Option Nat)
    (r : RState) :
    default_feature_map ops
      [[[0, 0, 0], [0, 0, 0]], [[0, 0, 0], [0, 0, 0]]]
      (some [1 / 2, 1 / 2, 1 / 2]) none none ss r =
      .error "ValueError: operands could not be broadcast together" := by
  rfl

/-- C2: on an all-background image, `object_features` does not satisfy the
claimed contract.  With a `sample_size` supplied it *raises*: zero objects
make `random.randint(0, 0, size=sample_size)` fail with `ValueError: low >=
high` (first conjunct, for every sample size and random state).  Without
sampling it returns the true count 0, but the quantile entries are the
masked (undefined) values `mquantiles` produces on empty data — not the
claimed consistently-defined 0.0 or NaN (second conjunct). -/
theorem claim_C2_zero_objects_sampling_raises :
    (∀ (ops : ImageOps) (r : RState) (s : Nat),
      object_features ops [[false, false], [false, false]] [[0, 0], [0, 0]] 2
        (some s) r = .error "ValueError: low >= high") ∧
    (∃ names, object_features trivOps [[false, false], [false, false]]
      [[0, 0], [0, 0]] 2 none rZero =
        .ok (PyF.num 0 :: List.replicate 40 PyF.masked, names)) := by
  constructor
  · intro ops r s
    rfl
  · refine ⟨"num-objs" :: (prop_names_2d.map (fun p =>
      default_quantiles.map (fun q => p ++ "-percentile" ++ toString (pctInt q)))).flatten, ?_⟩
    with_unfolding_all decide

/-- C3: on every label image with fewer than `n + 1` objects,
`nearest_neighbors` signals an error (a `ValueError` raised while fitting or
querying the `(n+1)`-nearest-neighbour index) instead of returning a feature
vector — unlike the segmentation extractor `object_features`, whose
zero-objects case (without sampling) still returns a vector (second
conjunct), so the insufficient-objects condition is signalled distinctly. -/
theorem claim_C3_insufficient_objects (ops : ImageOps) :
    (∀ (lab_input : LabInput) (n : Nat) (quantiles : List ℚ),
      nnNumObjs lab_input < n + 1 →
        isError (nearest_neighbors ops lab_input n quantiles) = true) ∧
    (∀ (bin_im : Mat Bool) (im : Mat ℚ) (erode : Nat) (r : RState),
      isError (object_features ops bin_im im erode none r) = false) :=
  ⟨fun lab_input n quantiles h => nn_insufficient_error ops lab_input n quantiles h,
   fun bin_im im erode r => object_features_none_ok ops bin_im im erode r⟩

/-- Witness for C3: a single-object label image has fewer than `3 + 1`
objects, and `nearest_neighbors` errors on it while `object_features`
returns normally on an all-background mask. -/
theorem claim_C3_witness :
    nnNumObjs (LabInput.labels [[1]]) < 3 + 1 ∧
    isError (nearest_neighbors trivOps (LabInput.labels [[1]]) 3 default_quantiles) =
      true ∧
    isError (object_features trivOps [[false]] [[0]] 2 none rZero) = false :=
  ⟨by decide,
   (claim_C3_insufficient_objects trivOps).1 (LabInput.labels [[1]]) 3 default_quantiles
     (by decide),
   (claim_C3_insufficient_objects trivOps).2 [[false]] [[0]] 2 rZero⟩

/-- C4 counterexample: on the zero-object reference mask `[[0,0],[0,0]]`
with positive mask `[[1,0],[0,0]]` (erosion 0, threshold 0.9),
`fraction_positive` returns NaN — not the claimed `0.0`. -/
theorem claim_C4_counterexample :
    fraction_positive [[false, false], [false, false]] [[true, false], [false, false]]
      0 (9 / 10) "nuclei" "tf" =
      .ok ([PyF.nan], ["frac-nuclei-pos-tf-erode-0-thresh-0.90"]) ∧
    PyF.nan ≠ PyF.num 0 := by
  constructor
  · with_unfolding_all decide
  · decide

/-- Witness for C4 (amended): the hypotheses hold and the conclusion follows
at the concrete counterexample input. -/
theorem claim_C4_witness :
    anyTrue (openedMask [[false, false], [false, false]] 0) = false ∧
    anyTrue (openedMask [[true, false], [false, false]] 0) = true ∧
    fraction_positive [[false, false], [false, false]] [[true, false], [false, false]]
      0 (9 / 10) "nuclei" "tf" = .ok ([PyF.nan], [fracName "nuclei" "tf" 0 (9 / 10)]) :=
  ⟨by decide, by decide,
   claim_C4_amended [[false, false], [false, false]] [[true, false], [false, false]]
     0 (9 / 10) "nuclei" "tf" (by decide) (by decide)⟩

/-- C5: on the documented example — reference mask
`[[1,1,0],[0,0,0],[1,1,1]]`, positive mask `[[1,0,0],[0,1,1],[0,1,1]]`,
erosion 0, threshold 0.6 — `fraction_positive` returns the value `0.5` with
the single name `frac-nuclei-pos-tf-erode-0-thresh-0.60`. -/
theorem claim_C5_example :
    fraction_positive
      [[true, true, false], [false, false, false], [true, true, true]]
      [[true, false, false], [false, true, true], [false, true, true]]
      0 (3 / 5) "nuclei" "tf" =
    .ok ([PyF.num (1 / 2)], ["frac-nuclei-pos-tf-erode-0-thresh-0.60"]) := by
  with_unfolding_all decide

/-- C6: every extractor returns a feature vector and a name list of equal
length whenever it returns at all, and the orchestrator's concatenation
preserves the equality. -/
theorem claim_C6_lengths :
    (∀ (ops : ImageOps) (bin_im : Mat Bool) (im : Mat ℚ) (erode : Nat)
      (ss : Option Nat) (r : RState),
      lensOk (object_features ops bin_im im erode ss r) = true) ∧
    (∀ (ops : ImageOps) (im : Mat ℚ) (thr : Option NPThr) (radius : Nat)
      (ss : Option Nat) (r : RState),
      lensOk (intensity_object_features ops im thr radius ss r) = true) ∧
    (∀ (ops : ImageOps) (lab_input : LabInput) (n : Nat) (q : List ℚ),
      lensOk (nearest_neighbors ops lab_input n q) = true) ∧
    (∀ (b p : Mat Bool) (erode : Nat) (t : ℚ) (bn pn : String),
      lensOk (fraction_positive b p erode t bn pn) = true) ∧
    (∀ (nuc cell : Mat Nat) (maxv : Nat),
      (nuclei_per_cell_histogram nuc cell maxv).1.length =
        (nuclei_per_cell_histogram nuc cell maxv).2.length) ∧
    (∀ (ops : ImageOps) (image : MCImage) (thr : Option (List ℚ))
      (ch : Option (List Nat)) (chn : Option (List String)) (ss : Option Nat)
      (r : RState),
      lensOk (default_feature_map ops image thr ch chn ss r) = true) := by
  refine ⟨object_features_lens, iof_lens, nearest_neighbors_lens,
    fraction_positive_lens, ?_, ?_⟩
  · intro nuc cell maxv
    rw [npch_fs_length, npch_names_length]
  · intro ops image thr ch chn ss r
    simp only [default_feature_map]
    exact dfmLoop_lens ops _ ss r _ [] [] rfl

/-- C7 counterexample: with one nucleus pixel inside a larger cell
(`nuc = [[1,0],[0,0]]`, `cell = [[1,1],[1,1]]`), the code's per-container
count for cell 1 is 2, while the number of distinct *positive* sub-object
labels overlapping cell 1 — the claim's value — is 1: the pair `(0, 1)`
(nucleus background under the cell) survives the both-zero filter and is
counted as an extra sub-object. -/
theorem claim_C7_counterexample :
    codeSubobjectCount [[1, 0], [0, 0]] [[1, 1], [1, 1]] 1 = 2 ∧
    claimSubobjectCount [[1, 0], [0, 0]] [[1, 1], [1, 1]] 1 = 1 ∧
    ¬(codeSubobjectCount [[1, 0], [0, 0]] [[1, 1], [1, 1]] 1 =
      claimSubobjectCount [[1, 0], [0, 0]] [[1, 1], [1, 1]] 1) :=
  ⟨by decide, by decide, by decide⟩

/-- C8: `nuclei_per_cell_histogram` always returns a feature vector of
length `max_value + 2`, and its entries sum to exactly 1 whenever the two
images have matching shape and at least one container object exists (i.e.
some pixel of the labelled container image is nonzero — such a container
always contributes a pair to the match table). -/
theorem claim_C8_histogram_sum (nuc_im cell_im : Mat Nat) (max_value : Nat) :
    (nuclei_per_cell_histogram nuc_im cell_im max_value).1.length = max_value + 2 ∧
    ((height nuc_im = height cell_im ∧ width nuc_im = width cell_im ∧
      ∃ i j, getN (ndLabel (toMask cell_im)).1 i j ≠ 0) →
      pySum (nuclei_per_cell_histogram nuc_im cell_im max_value).1 = PyF.num 1) := by
  constructor
  · exact npch_fs_length nuc_im cell_im max_value
  · intro h
    exact npch_sum_one max_value h.1 h.2.1 h.2.2

/-- Witness for C8: on a 2×2 pair with one cell covering the image, the
hypotheses hold and the histogram sums to 1. -/
theorem claim_C8_witness :
    (height ([[1, 0], [0, 0]] : Mat Nat) = height ([[1, 1], [1, 1]] : Mat Nat) ∧
      width ([[1, 0], [0, 0]] : Mat Nat) = width ([[1, 1], [1, 1]] : Mat Nat) ∧
      ∃ i j, getN (ndLabel (toMask [[1, 1], [1, 1]])).1 i j ≠ 0) ∧
    pySum (nuclei_per_cell_histogram [[1, 0], [0, 0]] [[1, 1], [1, 1]] 10).1 =
      PyF.num 1 :=
  ⟨⟨rfl, rfl, 0, 0, by decide⟩,
   (claim_C8_histogram_sum [[1, 0], [0, 0]] [[1, 1], [1, 1]] 10).2
     ⟨rfl, rfl, 0, 0, by decide⟩⟩

/-- C9: every extractor is deterministic — running it a second time on the
same inputs and the same random-source state yields the identical result;
in this embedding the explicit `RState` is the only state any extractor
consumes, so the two runs are one and the same pure application. -/
theorem claim_C9_determinism :
    (∀ (ops : ImageOps) (bin_im : Mat Bool) (im : Mat ℚ) (erode : Nat)
      (ss : Option Nat) (r : RState),
      object_features ops bin_im im erode ss r =
        object_features ops bin_im im erode ss r) ∧
    (∀ (ops : ImageOps) (im : Mat ℚ) (thr : Option NPThr) (radius : Nat)
      (ss : Option Nat) (r : RState),
      intensity_object_features ops im thr radius ss r =
        intensity_object_features ops im thr radius ss r) ∧
    (∀ (ops : ImageOps) (lab_input : LabInput) (n : Nat) (q : List ℚ),
      nearest_neighbors ops lab_input n q = nearest_neighbors ops lab_input n q) ∧
    (∀ (b p : Mat Bool) (erode : Nat) (t : ℚ) (bn pn : String),
      fraction_positive b p erode t bn pn = fraction_positive b p erode t bn pn) ∧
    (∀ (nuc cell : Mat Nat) (maxv : Nat),
      nuclei_per_cell_histogram nuc cell maxv = nuclei_per_cell_histogram nuc cell maxv) ∧
    (∀ (ops : ImageOps) (image : MCImage) (thr : Option (List ℚ))
      (ch : Option (List Nat)) (chn : Option (List String)) (ss : Option Nat)
      (r : RState),
      default_feature_map ops image thr ch chn ss r =
        default_feature_map ops image thr ch chn ss r) :=
  ⟨fun _ _ _ _ _ _ => rfl, fun _ _ _ _ _ _ => rfl, fun _ _ _ _ => rfl,
   fun _ _ _ _ _ _ => rfl, fun _ _ _ => rfl, fun _ _ _ _ _ _ _ => rfl⟩

/-- Witness for C10: the hypotheses hold and the `IndexError` is raised at a
concrete input with the default erosion radius. -/
theorem claim_C10_witness :
    anyTrue [[false]] = false ∧
    anyTrue [[true]] = true ∧
    fraction_positive [[true]] [[false]] 2 (9 / 10) "nuclei" "tf" =
      .error "IndexError: index 1 is out of bounds for axis 1 with size 1" :=
  ⟨by decide, by decide,
   claim_C10_empty_positive_error [[true]] [[false]] 2 (9 / 10) "nuclei" "tf"
     (by decide) (by decide)⟩
